import Mathlib

set_option maxRecDepth 4000

/-!
Verification of the `semver` library: the version ordering model and the
range algebra.  The repository carries two revisions of the `range`
component: a basis-version + kind representation (`range::kind_t` with
`exact`/`same_minor_version`/`same_major_version`/`anything_greater`) and a
two-endpoint `[low, high)` representation.  Both are embedded below: the
kind representation as `Semver.range`, the two-endpoint one as
`Semver.pair.range`.  The version comparison, string parsing and
`next_after` of `struct version` are declared in `version.hpp` but their
implementation file is not part of the sources, so those are modelled from
the specification (each such definition says so in its doc comment).
-/

namespace Semver

/-- Error conditions of the two parsers.  `invalid_version` carries the
offending string and the byte offset of the failure; `invalid_range`
carries the original range string (mirrors `semver::invalid_version` and
`semver::invalid_range`). -/
inductive semerr where
  | invalid_version (str : String) (off : Nat)
  | invalid_range (str : String)
deriving DecidableEq, Repr

/-- Modelled from the spec: a prerelease identifier is either a numeric
identifier (compared by integer value) or an alphanumeric identifier
(compared lexicographically in ASCII order).  The prerelease sub-grammar
component is an external collaborator of the core. -/
inductive prerelease_id where
  | num (value : Nat)
  | alnum (chars : List Char)
deriving DecidableEq, Repr

/-- Three-way comparison of natural numbers (used for the major/minor/patch
components, which the code compares as integer magnitudes). -/
def cmpNat (a b : Nat) : Ordering :=
  if a < b then .lt else if b < a then .gt else .eq

/-- Modelled from the spec: lexicographic ASCII comparison of the character
sequences of two alphanumeric identifiers; a strict prefix sorts first. -/
def charsCompare : List Char → List Char → Ordering
  | [], [] => .eq
  | [], _ :: _ => .lt
  | _ :: _, [] => .gt
  | a :: as, b :: bs =>
    match cmpNat a.toNat b.toNat with
    | .eq => charsCompare as bs
    | o => o

/-- Modelled from the spec: a numeric identifier compares less than an
alphanumeric identifier at the same position; two numeric identifiers
compare by integer value; two alphanumeric identifiers compare
lexicographically. -/
def idCompare : prerelease_id → prerelease_id → Ordering
  | .num a, .num b => cmpNat a b
  | .num _, .alnum _ => .lt
  | .alnum _, .num _ => .gt
  | .alnum a, .alnum b => charsCompare a b

/-- Modelled from the spec: pairwise comparison of two non-empty identifier
sequences; if one sequence is a strict prefix of the other, the shorter
sequence is less. -/
def idsCompare : List prerelease_id → List prerelease_id → Ordering
  | [], [] => .eq
  | [], _ :: _ => .lt
  | _ :: _, [] => .gt
  | a :: as, b :: bs =>
    match idCompare a b with
    | .eq => idsCompare as bs
    | o => o

/-- Modelled from the spec: the prerelease collaborator's three-way
comparison.  The empty sequence (no prerelease) is highest precedence: a
release version outranks any of its prereleases. -/
def prerelCompare (a b : List prerelease_id) : Ordering :=
  match a, b with
  | [], [] => .eq
  | [], _ :: _ => .gt
  | _ :: _, [] => .lt
  | _, _ => idsCompare a b

/-- `semver::version` (from `version.hpp`): the ordered tuple
(major, minor, patch, prerelease) with build metadata carried but excluded
from ordering.  Components default to zero, prerelease and build metadata
default to empty, as in the source. -/
structure version where
  major : Nat := 0
  minor : Nat := 0
  patch : Nat := 0
  prerelease : List prerelease_id := []
  build_metadata : List (List Char) := []
deriving DecidableEq, Repr

/-- `version::component_max` (from `version.hpp`):
`std::numeric_limits<int>::max()`. -/
def version.component_max : Nat := 2147483647

/-- `version::max_version()` (from `version.hpp`): the distinguished
sentinel with every component at `component_max`. -/
def version.max_version : version :=
  { major := version.component_max, minor := version.component_max
    patch := version.component_max }

/-- `semver::compare` — declared in `version.hpp`, implementation not among
the sources.  Modelled from the spec: compare major, then minor, then patch
numerically; if all three are equal, compare the prerelease sequences with
the empty sequence highest. -/
def vcompare (lhs rhs : version) : Ordering :=
  match cmpNat lhs.major rhs.major with
  | .eq =>
    match cmpNat lhs.minor rhs.minor with
    | .eq =>
      match cmpNat lhs.patch rhs.patch with
      | .eq => prerelCompare lhs.prerelease rhs.prerelease
      | o => o
    | o => o
  | o => o

/-- `operator==` on versions (from the `DEF_OP` block of `version.hpp`):
derived solely from `compare`. -/
def veq (lhs rhs : version) : Bool := vcompare lhs rhs == .eq

/-- `operator<` on versions (from the `DEF_OP` block of `version.hpp`). -/
def vlt (lhs rhs : version) : Bool := vcompare lhs rhs == .lt

/-- `operator>` on versions (from the `DEF_OP` block of `version.hpp`). -/
def vgt (lhs rhs : version) : Bool := vcompare lhs rhs == .gt

/-- `operator<=` on versions (from the `DEF_OP` block of `version.hpp`). -/
def vle (lhs rhs : version) : Bool :=
  vcompare lhs rhs == .lt || vcompare lhs rhs == .eq

/-- `operator>=` on versions (from the `DEF_OP` block of `version.hpp`). -/
def vge (lhs rhs : version) : Bool :=
  vcompare lhs rhs == .gt || vcompare lhs rhs == .eq

/-- `version::is_prerelease()` (from `version.hpp`): whether the prerelease
tag is non-empty. -/
def version.is_prerelease (v : version) : Bool := !v.prerelease.isEmpty

/-- `version::next_after()` — declared in `version.hpp`, implementation not
among the sources.  Modelled from the spec: the smallest release version
strictly greater than `self`, ignoring any prerelease tag, clearing
prerelease and build metadata; at a component already at `component_max`
the increment carries into the next component (the repository's own tests
pin `~1.2.3` to the upper bound `1.3.0`, which forces the carry). -/
def version.next_after (v : version) : version :=
  if v.patch ≠ version.component_max then
    { v with patch := v.patch + 1, prerelease := [], build_metadata := [] }
  else if v.minor ≠ version.component_max then
    { v with minor := v.minor + 1, patch := 0
             prerelease := [], build_metadata := [] }
  else
    { major := v.major + 1, minor := 0, patch := 0 }

/-- Decimal value of a digit run (used by the modelled version parser). -/
def digitsToNat (ds : List Char) : Nat :=
  ds.foldl (fun a c => a * 10 + (c.toNat - 48)) 0

/-- Modelled from the spec: prerelease/build identifiers are dot-separated
tokens of alphanumeric characters and hyphens. -/
def isIdentChar (c : Char) : Bool := c.isAlphanum || c == '-'

/-- Modelled from the spec: a prerelease identifier is numeric when all of
its characters are digits, alphanumeric otherwise; an empty or otherwise
malformed identifier fails. -/
def classifyIdent (cs : List Char) : Option prerelease_id :=
  if cs.isEmpty then none
  else if cs.all Char.isDigit then some (.num (digitsToNat cs))
  else if cs.all isIdentChar then some (.alnum cs)
  else none

/-- Modelled from the spec: parse a dot-separated prerelease identifier
sequence. -/
def parsePrerelease (cs : List Char) : Option (List prerelease_id) :=
  (cs.splitOn '.').mapM classifyIdent

/-- Modelled from the spec: a build-metadata identifier is a non-empty run
of alphanumeric characters and hyphens. -/
def classifyBuildIdent (cs : List Char) : Option (List Char) :=
  if cs.isEmpty then none
  else if cs.all isIdentChar then some cs
  else none

/-- Modelled from the spec: parse a dot-separated build-metadata identifier
sequence. -/
def parseBuild (cs : List Char) : Option (List (List Char)) :=
  (cs.splitOn '.').mapM classifyBuildIdent

/-- Tail of the modelled version parser: the optional `-prerelease` and
`+build` sections after `major.minor.patch`.  `off` is the byte offset of
this tail in the original string, used for the error offset. -/
def version.parseTail (s : String) (base : version) (off : Nat) :
    List Char → Except semerr version
  | [] => .ok base
  | '-' :: r =>
    match parsePrerelease (r.takeWhile (fun c => !(c == '+'))) with
    | none => .error (.invalid_version s (off + 1))
    | some pre =>
      match r.dropWhile (fun c => !(c == '+')) with
      | [] => .ok { base with prerelease := pre }
      | _ :: r2 =>
        match parseBuild r2 with
        | none => .error (.invalid_version s (off + 1))
        | some b => .ok { base with prerelease := pre, build_metadata := b }
  | '+' :: r =>
    match parseBuild r with
    | none => .error (.invalid_version s (off + 1))
    | some b => .ok { base with build_metadata := b }
  | _ => .error (.invalid_version s off)

/-- `version::parse` — declared in `version.hpp`, implementation not among
the sources.  Modelled from the spec: grammar
`major "." minor "." patch ["-" prerelease] ["+" build]` with non-negative
decimal components; fails with an invalid-version condition carrying the
string and the byte offset when a numeric component is missing or
non-numeric or an identifier is malformed.  A component at or above the
`component_max` sentinel is rejected, since the spec requires
`max_version` to sort above every version constructible from real
input. -/
def version.parse (s : String) : Except semerr version :=
  let majd := s.data.takeWhile Char.isDigit
  let r1 := s.data.dropWhile Char.isDigit
  if majd.isEmpty || version.component_max ≤ digitsToNat majd then
    .error (.invalid_version s 0)
  else
    match r1 with
    | '.' :: r2 =>
      let mind := r2.takeWhile Char.isDigit
      let r3 := r2.dropWhile Char.isDigit
      if mind.isEmpty || version.component_max ≤ digitsToNat mind then
        .error (.invalid_version s (majd.length + 1))
      else
        match r3 with
        | '.' :: r4 =>
          let patd := r4.takeWhile Char.isDigit
          let r5 := r4.dropWhile Char.isDigit
          if patd.isEmpty || version.component_max ≤ digitsToNat patd then
            .error (.invalid_version s (majd.length + mind.length + 2))
          else
            version.parseTail s
              { major := digitsToNat majd, minor := digitsToNat mind
                patch := digitsToNat patd }
              (majd.length + mind.length + patd.length + 2) r5
        | _ => .error (.invalid_version s (majd.length + mind.length + 1))
    | _ => .error (.invalid_version s majd.length)

/-- `range::kind_t` (basis/kind revision of `range.hpp`): the closed set of
range kinds. -/
inductive kind_t where
  | exact
  | same_minor_version
  | same_major_version
  | anything_greater
deriving DecidableEq, Repr

/-- `semver::range` (basis/kind revision of `range.hpp`): a basis version
plus a kind. -/
structure range where
  base_version : version
  kind : kind_t
deriving DecidableEq, Repr

/-- `range::parse` (basis/kind revision of `range.cpp`): `"*"` gives the
default-constructed basis with `anything_greater`; otherwise a single
leading prefix character (or a digit, consuming nothing) selects the kind
and the remainder is parsed as a version, whose failures propagate. -/
def range.parse (str : String) : Except semerr range :=
  if str = "*" then .ok ⟨{}, .anything_greater⟩
  else if str = "" then .error (.invalid_range str)
  else
    match str.data with
    | [] => .error (.invalid_range str)
    | c :: rest =>
      if c == '=' then (version.parse (String.mk rest)).map (fun v => ⟨v, .exact⟩)
      else if c == '~' then
        (version.parse (String.mk rest)).map (fun v => ⟨v, .same_minor_version⟩)
      else if c == '^' then
        (version.parse (String.mk rest)).map (fun v => ⟨v, .same_major_version⟩)
      else if c == '+' then
        (version.parse (String.mk rest)).map (fun v => ⟨v, .anything_greater⟩)
      else if c.isDigit then (version.parse str).map (fun v => ⟨v, .exact⟩)
      else .error (.invalid_range str)

/-- `range::first_bad_version` (basis/kind revision of `range.hpp`): start
from the basis with `build_metadata` reset to a default-constructed (empty)
value; for `exact` increment patch; otherwise zero the patch, reset the
prerelease to a default-constructed (empty) value, and for
`same_minor_version` increment minor, for `same_major_version` also zero
minor and increment major.  For `anything_greater` the source asserts and
terminates (a call-site contract violation), modelled as `none`. -/
def range.first_bad_version (r : range) : Option version :=
  let ret := { r.base_version with build_metadata := [] }
  if r.kind = .exact then some { ret with patch := ret.patch + 1 }
  else
    let ret2 := { ret with patch := 0, prerelease := [] }
    if r.kind = .same_minor_version then some { ret2 with minor := ret2.minor + 1 }
    else
      let ret3 := { ret2 with minor := 0 }
      if r.kind = .same_major_version then some { ret3 with major := ret3.major + 1 }
      else none

/-- Lexicographic comparison of a `(patch, prerelease)` pair, as produced
by the `std::tie` comparisons in `range::contains`. -/
def tieCompare2 (a b : Nat × List prerelease_id) : Ordering :=
  match cmpNat a.1 b.1 with
  | .eq => prerelCompare a.2 b.2
  | o => o

/-- Lexicographic comparison of a `(minor, patch, prerelease)` triple, as
produced by the `std::tie` comparisons in `range::contains`. -/
def tieCompare3 (a b : Nat × Nat × List prerelease_id) : Ordering :=
  match cmpNat a.1 b.1 with
  | .eq => tieCompare2 a.2 b.2
  | o => o

/-- `range::contains(const version&)` (basis/kind revision of `range.cpp`):
fail closed when the prerelease-presence of the candidate differs from the
basis's, then apply the kind-specific matching rules. -/
def range.contains (self : range) (ver : version) : Bool :=
  if ver.is_prerelease != self.base_version.is_prerelease then false
  else if self.kind = .anything_greater then vge ver self.base_version
  else if self.kind = .same_major_version then
    if ver.major ≠ self.base_version.major then false
    else
      tieCompare3 (ver.minor, ver.patch, ver.prerelease)
        (self.base_version.minor, self.base_version.patch,
          self.base_version.prerelease) != .lt
  else if self.kind = .same_minor_version then
    if ver.major ≠ self.base_version.major ∨ ver.minor ≠ self.base_version.minor then
      false
    else
      tieCompare2 (ver.patch, ver.prerelease)
        (self.base_version.patch, self.base_version.prerelease) != .lt
  else veq ver self.base_version

/-- Body of `range::intersection` (basis/kind revision of `range.cpp`)
after the commutativity normalization: the source first recurses with
swapped arguments when `other.base_version < base_version`, so this body is
only ever entered with `self.base_version <= other.base_version`.  The
final `none` arm is the source's unreachable `assert(false)`. -/
def range.intersectionBody (self other : range) : Option range :=
  if self.kind = .anything_greater then some other
  else if self.base_version.major < other.base_version.major then none
  else if self.kind = .same_major_version then
    if other.kind = .anything_greater then
      some ⟨other.base_version, .same_major_version⟩
    else some other
  else if self.base_version.minor < other.base_version.minor then none
  else if self.kind = .same_minor_version then
    if other.kind = .anything_greater ∨ other.kind = .same_major_version then
      some ⟨other.base_version, .same_minor_version⟩
    else some other
  else if self.base_version.patch < other.base_version.patch then none
  else if self.kind = .exact then some self
  else none

/-- `range::intersection` (basis/kind revision of `range.cpp`).  The
source's single self-recursion with swapped arguments (taken exactly when
`other.base_version < base_version`) is unfolded into the guard here. -/
def range.intersection (self other : range) : Option range :=
  if vlt other.base_version self.base_version then
    range.intersectionBody other self
  else range.intersectionBody self other

/-- Body of `range::union_` (basis/kind revision of `range.cpp`) after the
commutativity normalization, entered with
`self.base_version <= other.base_version`.  `first_bad_version` is `none`
only for `anything_greater`, which the preceding test excludes, so the
`none` arms are unreachable. -/
def range.unionBody (self other : range) : Option range :=
  if self.kind = .anything_greater then some self
  else
    match range.first_bad_version self with
    | none => none
    | some thisFBV =>
      if vgt other.base_version thisFBV then none
      else if veq other.base_version thisFBV then
        if other.kind = .anything_greater then
          some ⟨self.base_version, .anything_greater⟩
        else if other.kind = .same_major_version ∧ self.kind ≠ .same_major_version then
          some ⟨self.base_version, .same_major_version⟩
        else if other.kind = .same_minor_version ∧ self.kind = .exact then
          some ⟨self.base_version, .same_minor_version⟩
        else none
      else if other.kind = .anything_greater then
        some ⟨self.base_version, .anything_greater⟩
      else
        match range.first_bad_version other with
        | none => none
        | some otherFBV =>
          if vge thisFBV otherFBV then some self
          else some ⟨self.base_version, other.kind⟩

/-- `range::union_` (basis/kind revision of `range.cpp`).  The source's
single self-recursion with swapped arguments (taken exactly when
`other.base_version < base_version`) is unfolded into the guard here. -/
def range.union_ (self other : range) : Option range :=
  if vlt other.base_version self.base_version then range.unionBody other self
  else range.unionBody self other

/-- `range::contains(const range&)` (basis/kind revision of `range.cpp`):
the subset test.  Both `first_bad_version` calls happen with kinds other
than `anything_greater`, so the defensive `false` arm is unreachable. -/
def range.containsRange (self other : range) : Bool :=
  if vlt other.base_version self.base_version then false
  else if self.kind = .anything_greater then true
  else if other.kind = .anything_greater then false
  else
    match range.first_bad_version self, range.first_bad_version other with
    | some a, some b => vge a b
    | _, _ => false

/-- Loop body of `range::max_satisfying` (from `range.hpp`): skip an
element the range does not contain; otherwise adopt it when there is no
best-so-far or when it is strictly greater than the best-so-far. -/
def msStep (self : range) (ret : Option version) (it : version) :
    Option version :=
  if !range.contains self it then ret
  else
    match ret with
    | none => some it
    | some best => if vgt it best then some it else ret

/-- `range::max_satisfying` (from `range.hpp`, identical template in both
revisions): fold the loop body over the sequence starting from the empty
optional. -/
def range.max_satisfying (self : range) (versions : List version) :
    Option version :=
  versions.foldl (msStep self) none

/-- `range::operator==` (basis/kind revision of `range.hpp`): kinds equal
and basis versions equal under the version comparison (which ignores build
metadata). -/
def rangeEq (lhs rhs : range) : Bool :=
  decide (lhs.kind = rhs.kind) && veq lhs.base_version rhs.base_version

/-- `operator==` on `std::optional<range>` values, as used by the
commutativity checks in the repository's tests. -/
def optRangeEq : Option range → Option range → Bool
  | none, none => true
  | some a, some b => rangeEq a b
  | _, _ => false

namespace pair

/-- `semver::range` (two-endpoint revision of `range.hpp`): the half-open
interval `[low, high)`.  The constructor asserts `_high > _low`; the
`assertOk` predicate below captures that assertion. -/
structure range where
  low : version
  high : version
deriving DecidableEq, Repr

/-- The constructor assertion `_high > _low` of the two-endpoint
`range`. -/
def range.assertOk (r : range) : Bool := vgt r.high r.low

/-- `std::min` on versions: `(b < a) ? b : a`. -/
def vmin (a b : version) : version := if vlt b a then b else a

/-- `std::max` on versions: `(a < b) ? b : a`. -/
def vmax (a b : version) : version := if vlt a b then b else a

/-- `range::everything()` (two-endpoint revision of `range.hpp`). -/
def range.everything : range := ⟨{}, version.max_version⟩

/-- `range::exactly(v)` (two-endpoint revision of `range.hpp`). -/
def range.exactly (v : version) : range := ⟨v, v.next_after⟩

/-- `range::parse_restricted` (two-endpoint revision of `range.cpp`). -/
def range.parse_restricted (str : String) : Except semerr range :=
  if str = "*" then .ok ⟨{}, version.max_version⟩
  else if str = "" then .error (.invalid_range str)
  else
    match str.data with
    | [] => .error (.invalid_range str)
    | c :: rest =>
      if c == '=' then
        (version.parse (String.mk rest)).map (fun v => ⟨v, v.next_after⟩)
      else if c.isDigit then
        (version.parse str).map (fun v => ⟨v, v.next_after⟩)
      else if c == '~' then
        (version.parse (String.mk rest)).map (fun v =>
          ⟨v, version.next_after { v with patch := version.component_max }⟩)
      else if c == '^' then
        (version.parse (String.mk rest)).map (fun v =>
          ⟨v, version.next_after
            { v with minor := version.component_max
                     patch := version.component_max }⟩)
      else if c == '+' then
        (version.parse (String.mk rest)).map (fun v => ⟨v, version.max_version⟩)
      else .error (.invalid_range str)

/-- `range::parse` (two-endpoint revision of `range.cpp`): an explicit
`low<high` form splits at the first `<`, parses both endpoints as
versions (their failures propagate) and requires `high > low`; a string
without `<` goes through `parse_restricted`. -/
def range.parse (str : String) : Except semerr range :=
  match str.data.findIdx? (fun c => c == '<') with
  | none => range.parse_restricted str
  | some i =>
    match version.parse (String.mk (str.data.take i)) with
    | .error e => .error e
    | .ok low =>
      match version.parse (String.mk (str.data.drop (i + 1))) with
      | .error e => .error e
      | .ok high =>
        if vle high low then .error (.invalid_range str)
        else .ok ⟨low, high⟩

/-- `range::contains(const version&)` (two-endpoint revision of
`range.cpp`): `low <= other && high > other`. -/
def range.contains (self : range) (other : version) : Bool :=
  vle self.low other && vgt self.high other

/-- `range::contains(const range&)` (two-endpoint revision of
`range.cpp`). -/
def range.containsRange (self other : range) : Bool :=
  vle self.low other.low && vge self.high other.high

/-- `range::overlaps` (two-endpoint revision of `range.cpp`). -/
def range.overlaps (self other : range) : Bool :=
  range.contains self other.low || range.contains other self.low

/-- `range::intersection` (two-endpoint revision of `range.cpp`). -/
def range.intersection (self other : range) : Option range :=
  let low_ := vmax self.low other.low
  let high_ := vmin self.high other.high
  if vlt low_ high_ then some ⟨low_, high_⟩ else none

/-- `range::union_` (two-endpoint revision of `range.cpp`): always
representable in this revision. -/
def range.union_ (self other : range) : Option range :=
  some ⟨vmin self.low other.low, vmax self.high other.high⟩

/-- `semver::range_difference` (two-endpoint revision of `range.hpp`). -/
structure range_difference where
  before : Option range
  after : Option range
deriving DecidableEq, Repr

/-- `diff_before` (two-endpoint revision of `range.cpp`). -/
def diff_before (self other : range) : Option range :=
  if vge self.low other.low then none else some ⟨self.low, other.low⟩

/-- `diff_after` (two-endpoint revision of `range.cpp`). -/
def diff_after (self other : range) : Option range :=
  if vle self.high other.high then none else some ⟨other.high, self.high⟩

/-- `range::difference` (two-endpoint revision of `range.cpp`). -/
def range.difference (self other : range) : range_difference :=
  if !range.overlaps self other then
    if vlt self.low other.low then ⟨some self, none⟩ else ⟨none, some self⟩
  else ⟨diff_before self other, diff_after self other⟩

end pair

/-!
Spec-side formulations.  Unlike the definitions above, which are translated
from the source, the following definitions transcribe the words of the
specification and of the claims, to be compared with the source-translated
definitions.
-/

/-- Spec-side formulation of §4.10 for the difference operation: `before`
is the half-open range from `a`'s lower bound up to `b`'s lower bound when
`a`'s lower bound is strictly below `b`'s (else empty); `after` is the
half-open range from `b`'s exclusive upper bound up to `a`'s exclusive
upper bound when `a`'s upper bound is strictly greater than `b`'s (else
empty); when the ranges do not overlap, all of `a` is returned as `before`
when `a`'s lower bound is strictly below `b`'s and as `after`
otherwise. -/
def specDifference (a b : pair.range) : pair.range_difference :=
  if pair.range.overlaps a b = false then
    if vlt a.low b.low = true then ⟨some a, none⟩ else ⟨none, some a⟩
  else
    ⟨if vlt a.low b.low = true then some ⟨a.low, b.low⟩ else none,
      if vgt a.high b.high = true then some ⟨b.high, a.high⟩ else none⟩

/-- Whether a parse outcome is the invalid-range error condition. -/
def isInvalidRange {α : Type} : Except semerr α → Bool
  | .error (.invalid_range _) => true
  | _ => false

/-- Whether the first character of the string is a recognized range prefix
(`=`, `~`, `^`, `+`) or a decimal digit. -/
def firstIsRangeToken (s : String) : Bool :=
  match s.data with
  | [] => false
  | c :: _ => c == '=' || c == '~' || c == '^' || c == '+' || c.isDigit

/-- Whether the string is an explicit two-endpoint `low<high` form (split
at the first `<`) in which both endpoints parse as versions and the high
endpoint is not strictly greater than the low endpoint. -/
def twoEndpointNotAbove (s : String) : Bool :=
  match s.data.findIdx? (fun c => c == '<') with
  | none => false
  | some i =>
    match version.parse (String.mk (s.data.take i)),
        version.parse (String.mk (s.data.drop (i + 1))) with
    | .ok low, .ok high => vle high low
    | _, _ => false

/-- The condition under which claim C8 predicts an invalid-range error:
the input is empty, or its first character is neither a recognized prefix
nor a decimal digit and the input is not `"*"`, or the input is a
two-endpoint form whose high endpoint is not strictly greater than the low
endpoint. -/
def rangeParseClaimCond (s : String) : Bool :=
  s == "" || (!(s == "*") && !firstIsRangeToken s) || twoEndpointNotAbove s

/-- The amended condition for C8: the first-character test only applies to
inputs containing no `<` (inputs with a `<` that fail to parse as versions
raise the invalid-version error instead). -/
def rangeParseAmendedCond (s : String) : Bool :=
  (s.data.all (fun c => !(c == '<')) &&
    (s == "" || (!(s == "*") && !firstIsRangeToken s))) ||
  twoEndpointNotAbove s

/-! Basic facts about the comparison functions. -/

theorem cmpNat_lt_iff {a b : Nat} : cmpNat a b = .lt ↔ a < b := by
  unfold cmpNat
  split
  · simp; omega
  · split <;> simp <;> omega

theorem cmpNat_gt_iff {a b : Nat} : cmpNat a b = .gt ↔ b < a := by
  unfold cmpNat
  split
  · simp; omega
  · split <;> simp <;> omega

theorem cmpNat_eq_iff {a b : Nat} : cmpNat a b = .eq ↔ a = b := by
  unfold cmpNat
  split
  · simp; omega
  · split <;> simp <;> omega

theorem cmpNat_self (a : Nat) : cmpNat a a = .eq := by
  simp [cmpNat_eq_iff]

theorem cmpNat_swap (a b : Nat) : cmpNat b a = (cmpNat a b).swap := by
  unfold cmpNat
  split <;> split <;> simp_all [Ordering.swap] <;> omega

theorem charsCompare_swap (a b : List Char) :
    charsCompare b a = (charsCompare a b).swap := by
  induction a generalizing b with
  | nil => cases b <;> rfl
  | cons x xs ih =>
    cases b with
    | nil => rfl
    | cons y ys =>
      simp only [charsCompare]
      rw [cmpNat_swap x.toNat y.toNat]
      cases cmpNat x.toNat y.toNat <;> simp [Ordering.swap, ih]

theorem charsCompare_eq : ∀ {a b : List Char}, charsCompare a b = .eq → a = b := by
  intro a
  induction a with
  | nil => intro b h; cases b with
    | nil => rfl
    | cons y ys => simp [charsCompare] at h
  | cons x xs ih =>
    intro b h
    cases b with
    | nil => simp [charsCompare] at h
    | cons y ys =>
      simp only [charsCompare] at h
      cases hc : cmpNat x.toNat y.toNat <;> rw [hc] at h
      · cases h
      · have hx : x.toNat = y.toNat := cmpNat_eq_iff.mp hc
        have hxy : x = y := Char.ext (UInt32.ext hx)
        rw [hxy, ih h]
      · cases h

theorem charsCompare_lt_trans :
    ∀ {a b c : List Char}, charsCompare a b = .lt → charsCompare b c = .lt →
      charsCompare a c = .lt := by
  intro a
  induction a with
  | nil =>
    intro b c h1 h2
    cases b with
    | nil => cases h1
    | cons y ys =>
      cases c with
      | nil => cases h2
      | cons z zs => rfl
  | cons x xs ih =>
    intro b c h1 h2
    cases b with
    | nil => cases h1
    | cons y ys =>
      cases c with
      | nil => cases h2
      | cons z zs =>
        simp only [charsCompare] at h1 h2 ⊢
        cases hxy : cmpNat x.toNat y.toNat <;> rw [hxy] at h1
        · cases hyz : cmpNat y.toNat z.toNat <;> rw [hyz] at h2
          · have h3 : cmpNat x.toNat z.toNat = .lt := by
              rw [cmpNat_lt_iff] at hxy hyz ⊢; omega
            rw [h3]
          · have hy := cmpNat_eq_iff.mp hyz
            have h3 : cmpNat x.toNat z.toNat = .lt := by
              rw [cmpNat_lt_iff] at hxy ⊢; omega
            rw [h3]
          · cases h2
        · have hx := cmpNat_eq_iff.mp hxy
          cases hyz : cmpNat y.toNat z.toNat <;> rw [hyz] at h2
          · have h3 : cmpNat x.toNat z.toNat = .lt := by
              rw [cmpNat_lt_iff] at hyz ⊢; omega
            rw [h3]
          · have hy := cmpNat_eq_iff.mp hyz
            have h3 : cmpNat x.toNat z.toNat = .eq := by
              rw [cmpNat_eq_iff]; omega
            rw [h3]
            exact ih h1 h2
          · cases h2
        · cases h1

theorem charsCompare_refl (a : List Char) : charsCompare a a = .eq := by
  induction a with
  | nil => rfl
  | cons x xs ih => simp [charsCompare, cmpNat_self, ih]

theorem idCompare_swap (a b : prerelease_id) :
    idCompare b a = (idCompare a b).swap := by
  cases a <;> cases b
  · exact cmpNat_swap _ _
  · rfl
  · rfl
  · exact charsCompare_swap _ _

theorem idCompare_eq : ∀ {a b : prerelease_id}, idCompare a b = .eq → a = b := by
  intro a b h
  cases a <;> cases b <;> simp [idCompare] at h ⊢
  · exact cmpNat_eq_iff.mp h
  · exact charsCompare_eq h

theorem idCompare_refl (a : prerelease_id) : idCompare a a = .eq := by
  cases a <;> simp [idCompare, cmpNat_self, charsCompare_refl]

theorem idCompare_lt_trans : ∀ {a b c : prerelease_id},
    idCompare a b = .lt → idCompare b c = .lt → idCompare a c = .lt := by
  intro a b c h1 h2
  cases a <;> cases b <;> cases c <;> simp [idCompare] at h1 h2 ⊢
  · rw [cmpNat_lt_iff] at h1 h2 ⊢; omega
  · exact charsCompare_lt_trans h1 h2

theorem idsCompare_swap (a b : List prerelease_id) :
    idsCompare b a = (idsCompare a b).swap := by
  induction a generalizing b with
  | nil => cases b <;> rfl
  | cons x xs ih =>
    cases b with
    | nil => rfl
    | cons y ys =>
      simp only [idsCompare]
      rw [idCompare_swap x y]
      cases idCompare x y <;> simp [Ordering.swap, ih]

theorem idsCompare_eq : ∀ {a b : List prerelease_id},
    idsCompare a b = .eq → a = b := by
  intro a
  induction a with
  | nil => intro b h; cases b with
    | nil => rfl
    | cons y ys => simp [idsCompare] at h
  | cons x xs ih =>
    intro b h
    cases b with
    | nil => simp [idsCompare] at h
    | cons y ys =>
      simp only [idsCompare] at h
      cases hc : idCompare x y <;> rw [hc] at h
      · cases h
      · rw [idCompare_eq hc, ih h]
      · cases h

theorem idsCompare_refl (a : List prerelease_id) : idsCompare a a = .eq := by
  induction a with
  | nil => rfl
  | cons x xs ih => simp [idsCompare, idCompare_refl, ih]

theorem idsCompare_lt_trans : ∀ {a b c : List prerelease_id},
    idsCompare a b = .lt → idsCompare b c = .lt → idsCompare a c = .lt := by
  intro a
  induction a with
  | nil =>
    intro b c h1 h2
    cases b with
    | nil => cases h1
    | cons y ys =>
      cases c with
      | nil => cases h2
      | cons z zs => rfl
  | cons x xs ih =>
    intro b c h1 h2
    cases b with
    | nil => cases h1
    | cons y ys =>
      cases c with
      | nil => cases h2
      | cons z zs =>
        simp only [idsCompare] at h1 h2 ⊢
        cases hxy : idCompare x y <;> rw [hxy] at h1
        case lt =>
          cases hyz : idCompare y z <;> rw [hyz] at h2
          case lt => rw [idCompare_lt_trans hxy hyz]
          case eq => rw [← idCompare_eq hyz, hxy]
          case gt => cases h2
        case eq =>
          have hx := idCompare_eq hxy
          subst hx
          cases hyz : idCompare x z <;> rw [hyz] at h2
          case eq => exact ih h1 h2
          case gt => cases h2
        case gt => cases h1

theorem prerelCompare_swap (a b : List prerelease_id) :
    prerelCompare b a = (prerelCompare a b).swap := by
  cases a with
  | nil =>
    cases b with
    | nil => rfl
    | cons y ys => rfl
  | cons x xs =>
    cases b with
    | nil => rfl
    | cons y ys => exact idsCompare_swap _ _

theorem prerelCompare_eq : ∀ {a b : List prerelease_id},
    prerelCompare a b = .eq → a = b := by
  intro a b h
  cases a with
  | nil =>
    cases b with
    | nil => rfl
    | cons y ys => cases h
  | cons x xs =>
    cases b with
    | nil => cases h
    | cons y ys => exact idsCompare_eq h

theorem prerelCompare_refl (a : List prerelease_id) :
    prerelCompare a a = .eq := by
  cases a with
  | nil => rfl
  | cons x xs => exact idsCompare_refl _

theorem prerelCompare_lt_trans : ∀ {a b c : List prerelease_id},
    prerelCompare a b = .lt → prerelCompare b c = .lt →
      prerelCompare a c = .lt := by
  intro a b c h1 h2
  cases a with
  | nil =>
    cases b with
    | nil => cases h1
    | cons y ys => cases h1
  | cons x xs =>
    cases c with
    | nil =>
      cases b with
      | nil => rfl
      | cons y ys => rfl
    | cons z zs =>
      cases b with
      | nil => cases h2
      | cons y ys => exact idsCompare_lt_trans h1 h2

theorem vcompare_refl (v : version) : vcompare v v = .eq := by
  unfold vcompare
  rw [cmpNat_self, cmpNat_self, cmpNat_self, prerelCompare_refl]

theorem vcompare_swap (a b : version) : vcompare b a = (vcompare a b).swap := by
  unfold vcompare
  rw [cmpNat_swap a.major b.major, cmpNat_swap a.minor b.minor,
    cmpNat_swap a.patch b.patch, prerelCompare_swap a.prerelease b.prerelease]
  cases cmpNat a.major b.major <;> cases cmpNat a.minor b.minor <;>
    cases cmpNat a.patch b.patch <;> rfl

theorem vcompare_eq_fields {a b : version} (h : vcompare a b = .eq) :
    a.major = b.major ∧ a.minor = b.minor ∧ a.patch = b.patch ∧
      a.prerelease = b.prerelease := by
  unfold vcompare at h
  cases h1 : cmpNat a.major b.major <;> rw [h1] at h
  · cases h
  · cases h2 : cmpNat a.minor b.minor <;> rw [h2] at h
    · cases h
    · cases h3 : cmpNat a.patch b.patch <;> rw [h3] at h
      · cases h
      · exact ⟨cmpNat_eq_iff.mp h1, cmpNat_eq_iff.mp h2, cmpNat_eq_iff.mp h3,
          prerelCompare_eq h⟩
      · cases h
    · cases h
  · cases h

theorem vcompare_lt_trans {a b c : version} (h1 : vcompare a b = .lt)
    (h2 : vcompare b c = .lt) : vcompare a c = .lt := by
  unfold vcompare at h1 h2 ⊢
  cases hab : cmpNat a.major b.major <;> rw [hab] at h1
  case gt => cases h1
  case lt =>
    cases hbc : cmpNat b.major c.major <;> rw [hbc] at h2
    case gt => cases h2
    case lt =>
      rw [show cmpNat a.major c.major = .lt by
        rw [cmpNat_lt_iff] at hab hbc ⊢; omega]
    case eq =>
      rw [show cmpNat a.major c.major = .lt by
        rw [cmpNat_lt_iff] at hab ⊢; rw [cmpNat_eq_iff] at hbc; omega]
  case eq =>
    cases hbc : cmpNat b.major c.major <;> rw [hbc] at h2
    case gt => cases h2
    case lt =>
      rw [show cmpNat a.major c.major = .lt by
        rw [cmpNat_lt_iff] at hbc ⊢; rw [cmpNat_eq_iff] at hab; omega]
    case eq =>
      rw [show cmpNat a.major c.major = .eq by
        rw [cmpNat_eq_iff] at hab hbc ⊢; omega]
      cases hab2 : cmpNat a.minor b.minor <;> rw [hab2] at h1
      case gt => cases h1
      case lt =>
        cases hbc2 : cmpNat b.minor c.minor <;> rw [hbc2] at h2
        case gt => cases h2
        case lt =>
          rw [show cmpNat a.minor c.minor = .lt by
            rw [cmpNat_lt_iff] at hab2 hbc2 ⊢; omega]
        case eq =>
          rw [show cmpNat a.minor c.minor = .lt by
            rw [cmpNat_lt_iff] at hab2 ⊢; rw [cmpNat_eq_iff] at hbc2; omega]
      case eq =>
        cases hbc2 : cmpNat b.minor c.minor <;> rw [hbc2] at h2
        case gt => cases h2
        case lt =>
          rw [show cmpNat a.minor c.minor = .lt by
            rw [cmpNat_lt_iff] at hbc2 ⊢; rw [cmpNat_eq_iff] at hab2; omega]
        case eq =>
          rw [show cmpNat a.minor c.minor = .eq by
            rw [cmpNat_eq_iff] at hab2 hbc2 ⊢; omega]
          cases hab3 : cmpNat a.patch b.patch <;> rw [hab3] at h1
          case gt => cases h1
          case lt =>
            cases hbc3 : cmpNat b.patch c.patch <;> rw [hbc3] at h2
            case gt => cases h2
            case lt =>
              rw [show cmpNat a.patch c.patch = .lt by
                rw [cmpNat_lt_iff] at hab3 hbc3 ⊢; omega]
            case eq =>
              rw [show cmpNat a.patch c.patch = .lt by
                rw [cmpNat_lt_iff] at hab3 ⊢; rw [cmpNat_eq_iff] at hbc3; omega]
          case eq =>
            cases hbc3 : cmpNat b.patch c.patch <;> rw [hbc3] at h2
            case gt => cases h2
            case lt =>
              rw [show cmpNat a.patch c.patch = .lt by
                rw [cmpNat_lt_iff] at hbc3 ⊢; rw [cmpNat_eq_iff] at hab3; omega]
            case eq =>
              rw [show cmpNat a.patch c.patch = .eq by
                rw [cmpNat_eq_iff] at hab3 hbc3 ⊢; omega]
              exact prerelCompare_lt_trans h1 h2

theorem vcompare_congr_left {a b : version} (h : vcompare a b = .eq)
    (c : version) : vcompare a c = vcompare b c := by
  obtain ⟨h1, h2, h3, h4⟩ := vcompare_eq_fields h
  unfold vcompare
  rw [h1, h2, h3, h4]

theorem vcompare_congr_right {a b : version} (h : vcompare a b = .eq)
    (c : version) : vcompare c a = vcompare c b := by
  obtain ⟨h1, h2, h3, h4⟩ := vcompare_eq_fields h
  unfold vcompare
  rw [h1, h2, h3, h4]

theorem vlt_iff {a b : version} : vlt a b = true ↔ vcompare a b = .lt := by
  simp only [vlt]
  cases vcompare a b <;> decide

theorem vgt_iff {a b : version} : vgt a b = true ↔ vcompare a b = .gt := by
  simp only [vgt]
  cases vcompare a b <;> decide

theorem veq_iff {a b : version} : veq a b = true ↔ vcompare a b = .eq := by
  simp only [veq]
  cases vcompare a b <;> decide

theorem vle_iff {a b : version} :
    vle a b = true ↔ vcompare a b = .lt ∨ vcompare a b = .eq := by
  simp only [vle]
  cases vcompare a b <;> decide

theorem vge_iff {a b : version} :
    vge a b = true ↔ vcompare a b = .gt ∨ vcompare a b = .eq := by
  simp only [vge]
  cases vcompare a b <;> decide

theorem vge_false_iff {a b : version} :
    vge a b = false ↔ vcompare a b = .lt := by
  simp only [vge]
  cases vcompare a b <;> decide

theorem vle_false_iff {a b : version} :
    vle a b = false ↔ vcompare a b = .gt := by
  simp only [vle]
  cases vcompare a b <;> decide

theorem vgt_false_iff {a b : version} :
    vgt a b = false ↔ vcompare a b = .lt ∨ vcompare a b = .eq := by
  simp only [vgt]
  cases vcompare a b <;> decide

theorem vlt_false_iff {a b : version} :
    vlt a b = false ↔ vcompare a b = .gt ∨ vcompare a b = .eq := by
  simp only [vlt]
  cases vcompare a b <;> decide

theorem vgt_eq_vlt_rev (a b : version) : vgt a b = vlt b a := by
  simp only [vgt, vlt, vcompare_swap a b]
  cases vcompare a b <;> rfl

theorem vcompare_eq_of_not_gt {v w : version} (h1 : vgt v w = false)
    (h2 : vgt w v = false) : vcompare v w = .eq := by
  rw [vgt_false_iff] at h1
  rcases h1 with h1 | h1
  · exfalso
    rw [vgt_false_iff, vcompare_swap] at h2
    rw [h1] at h2
    rcases h2 with h2 | h2 <;> cases h2
  · exact h1

theorem vgt_false_trans {x a v : version} (h1 : vgt x a = false)
    (h2 : vgt a v = false) : vgt x v = false := by
  rw [vgt_false_iff] at h1 h2 ⊢
  rcases h1 with h1 | h1 <;> rcases h2 with h2 | h2
  · exact Or.inl (vcompare_lt_trans h1 h2)
  · rw [← vcompare_congr_right h2 x]
    exact Or.inl h1
  · rw [vcompare_congr_left h1 v]
    exact Or.inl h2
  · rw [vcompare_congr_left h1 v]
    exact Or.inr h2

theorem vlt_next_after (v : version) : vlt v v.next_after = true := by
  rw [vlt_iff]
  unfold version.next_after
  split
  · unfold vcompare
    rw [cmpNat_self, cmpNat_self]
    rw [show cmpNat v.patch (v.patch + 1) = .lt from cmpNat_lt_iff.mpr (by omega)]
  · split
    · unfold vcompare
      rw [cmpNat_self]
      rw [show cmpNat v.minor (v.minor + 1) = .lt from cmpNat_lt_iff.mpr (by omega)]
    · unfold vcompare
      rw [show cmpNat v.major (v.major + 1) = .lt from cmpNat_lt_iff.mpr (by omega)]

theorem vgt_next_after (v : version) : vgt v.next_after v = true := by
  rw [vgt_iff, vcompare_swap]
  rw [vlt_iff.mp (vlt_next_after v)]
  rfl

theorem first_bad_version_eq_none_iff (r : range) :
    range.first_bad_version r = none ↔ r.kind = .anything_greater := by
  rcases r with ⟨b, k⟩
  cases k <;> simp [range.first_bad_version]

theorem vlt_first_bad_version {r : range} {w : version}
    (h : range.first_bad_version r = some w) :
    vlt r.base_version w = true := by
  rcases r with ⟨b, k⟩
  rw [vlt_iff]
  cases k <;> simp [range.first_bad_version] at h
  · rw [← h]
    unfold vcompare
    rw [cmpNat_self, cmpNat_self]
    rw [show cmpNat b.patch (b.patch + 1) = .lt from cmpNat_lt_iff.mpr (by omega)]
  · rw [← h]
    unfold vcompare
    rw [cmpNat_self]
    rw [show cmpNat b.minor (b.minor + 1) = .lt from cmpNat_lt_iff.mpr (by omega)]
  · rw [← h]
    unfold vcompare
    rw [show cmpNat b.major (b.major + 1) = .lt from cmpNat_lt_iff.mpr (by omega)]

/-! Helper facts about the range operations, shared by several of the
claim theorems below. -/

theorem contains_false_of_mismatch {r : range} {v : version}
    (h : v.is_prerelease ≠ r.base_version.is_prerelease) :
    range.contains r v = false := by
  unfold range.contains
  have hb : (v.is_prerelease != r.base_version.is_prerelease) = true := by
    cases h1 : v.is_prerelease <;> cases h2 : r.base_version.is_prerelease <;>
      simp_all
  rw [hb]
  rfl

/-! The claim theorems. -/

/-- Claim C1: for every range `r` and version `v`, `r.contains(v)` returns
false whenever `v`'s prerelease-presence differs from the
prerelease-presence of `r`'s basis version, whatever the kind of `r` (the
check precedes all kind-specific logic). -/
theorem C1_contains_prerelease_mismatch (r : range) (v : version)
    (h : v.is_prerelease ≠ r.base_version.is_prerelease) :
    range.contains r v = false :=
  contains_false_of_mismatch h

/-- Witness for C1, at the claim's example: the range `+1.2.0` (whose basis
is not a prerelease) does not contain the prerelease version
`1.2.3-alpha`, although it lies numerically inside the interval. -/
theorem C1_witness :
    range.parse "+1.2.0" = .ok ⟨⟨1, 2, 0, [], []⟩, .anything_greater⟩ ∧
    version.parse "1.2.3-alpha" =
      .ok ⟨1, 2, 3, [.alnum ['a', 'l', 'p', 'h', 'a']], []⟩ ∧
    range.contains ⟨⟨1, 2, 0, [], []⟩, .anything_greater⟩
      ⟨1, 2, 3, [.alnum ['a', 'l', 'p', 'h', 'a']], []⟩ = false :=
  ⟨rfl, rfl,
    C1_contains_prerelease_mismatch ⟨⟨1, 2, 0, [], []⟩, .anything_greater⟩
      ⟨1, 2, 3, [.alnum ['a', 'l', 'p', 'h', 'a']], []⟩ (by decide)⟩

/-- Claim C10: `range::parse("*")` produces basis `(0,0,0)` with kind
`anything_greater`, and since that basis is not a prerelease the resulting
range contains no prerelease version whatsoever. -/
theorem C10_star_range (v : version) (h : v.prerelease ≠ []) :
    range.parse "*" = .ok ⟨⟨0, 0, 0, [], []⟩, .anything_greater⟩ ∧
    range.contains ⟨⟨0, 0, 0, [], []⟩, .anything_greater⟩ v = false := by
  refine ⟨rfl, contains_false_of_mismatch ?_⟩
  simp only [version.is_prerelease]
  cases hv : v.prerelease with
  | nil => exact absurd hv h
  | cons x xs => simp

/-- Witness for C10: the prerelease version `999.0.0-rc` far above `0.0.0`
is still rejected by the range parsed from `"*"`. -/
theorem C10_witness :
    range.parse "*" = .ok ⟨⟨0, 0, 0, [], []⟩, .anything_greater⟩ ∧
    range.contains ⟨⟨0, 0, 0, [], []⟩, .anything_greater⟩
      ⟨999, 0, 0, [.alnum ['r', 'c']], []⟩ = false :=
  C10_star_range ⟨999, 0, 0, [.alnum ['r', 'c']], []⟩ (by decide)

/-- Claim C3 (counterexample): on the range `~1.2.3-a+b` the claim predicts
`first_bad_version` to copy the build metadata through and carry the
prerelease, yielding `1.3.0-a+b`; the code instead clears both, yielding
`1.3.0`. -/
theorem C3_counterexample :
    range.first_bad_version
        ⟨⟨1, 2, 3, [.alnum ['a']], [['b']]⟩, .same_minor_version⟩ =
      some ⟨1, 3, 0, [], []⟩ ∧
    range.first_bad_version
        ⟨⟨1, 2, 3, [.alnum ['a']], [['b']]⟩, .same_minor_version⟩ ≠
      some ⟨1, 3, 0, [.alnum ['a']], [['b']]⟩ :=
  ⟨rfl, by decide⟩

/-- Claim C3 (amended): `first_bad_version` starts from the basis with its
build metadata cleared (not copied through); for `exact` it increments
patch (keeping the prerelease); for `same_minor` it zeroes patch, clears
the prerelease (instead of carrying it through) and increments minor; for
`same_major` it additionally zeroes minor and increments major; for
`anything_greater` it has no result.  Concretely `~1.2.3` yields `1.3.0`
and `^1.2.3` yields `2.0.0`. -/
theorem C3_first_bad_version_amended :
    (∀ r : range, r.kind = .exact →
      range.first_bad_version r =
        some { r.base_version with
               build_metadata := [], patch := r.base_version.patch + 1 }) ∧
    (∀ r : range, r.kind = .same_minor_version →
      range.first_bad_version r =
        some ⟨r.base_version.major, r.base_version.minor + 1, 0, [], []⟩) ∧
    (∀ r : range, r.kind = .same_major_version →
      range.first_bad_version r =
        some ⟨r.base_version.major + 1, 0, 0, [], []⟩) ∧
    (∀ r : range, r.kind = .anything_greater →
      range.first_bad_version r = none) ∧
    (range.parse "~1.2.3").map range.first_bad_version =
      .ok (some ⟨1, 3, 0, [], []⟩) ∧
    (range.parse "^1.2.3").map range.first_bad_version =
      .ok (some ⟨2, 0, 0, [], []⟩) := by
  refine ⟨?_, ?_, ?_, ?_, rfl, rfl⟩ <;> intro r hk <;> rcases r with ⟨b, k⟩ <;>
    subst hk <;> rfl

/-- Witness for C3 (amended), at concrete ranges of each kind. -/
theorem C3_witness :
    range.first_bad_version ⟨⟨1, 2, 3, [], []⟩, .exact⟩ =
      some ⟨1, 2, 4, [], []⟩ ∧
    range.first_bad_version ⟨⟨1, 2, 3, [], []⟩, .same_minor_version⟩ =
      some ⟨1, 3, 0, [], []⟩ ∧
    range.first_bad_version ⟨⟨1, 2, 3, [], []⟩, .same_major_version⟩ =
      some ⟨2, 0, 0, [], []⟩ ∧
    range.first_bad_version ⟨⟨1, 2, 3, [], []⟩, .anything_greater⟩ = none :=
  ⟨C3_first_bad_version_amended.1 ⟨⟨1, 2, 3, [], []⟩, .exact⟩ rfl,
    C3_first_bad_version_amended.2.1 ⟨⟨1, 2, 3, [], []⟩, .same_minor_version⟩ rfl,
    C3_first_bad_version_amended.2.2.1 ⟨⟨1, 2, 3, [], []⟩, .same_major_version⟩ rfl,
    C3_first_bad_version_amended.2.2.2.1 ⟨⟨1, 2, 3, [], []⟩, .anything_greater⟩ rfl⟩

/-- Claim C2: for ranges `a`, `b` normalized so that `a`'s basis is at most
`b`'s basis and `a`'s kind is not `anything_greater`, if `b`'s basis is
strictly greater than `a.first_bad_version()` then the union is not
representable (`a.union_(b)` is empty). -/
theorem C2_union_disjoint (a b : range)
    (hle : vle a.base_version b.base_version = true)
    (hk : a.kind ≠ .anything_greater) (w : version)
    (hw : range.first_bad_version a = some w)
    (hgt : vgt b.base_version w = true) :
    range.union_ a b = none := by
  have hswap : vlt b.base_version a.base_version = false := by
    rw [vlt_false_iff, vcompare_swap]
    rw [vle_iff] at hle
    rcases hle with h | h <;> rw [h]
    · exact Or.inl rfl
    · exact Or.inr rfl
  unfold range.union_
  rw [hswap]
  simp only [Bool.false_eq_true, if_false]
  unfold range.unionBody
  rw [if_neg hk, hw]
  simp only [hgt, if_true]

/-- Witness for C2, at the claim's example: `^1.6.2` and `4.1.2` have no
representable union (`first_bad_version` of `^1.6.2` is `2.0.0`, strictly
below the basis `4.1.2`). -/
theorem C2_witness :
    range.parse "^1.6.2" = .ok ⟨⟨1, 6, 2, [], []⟩, .same_major_version⟩ ∧
    range.parse "4.1.2" = .ok ⟨⟨4, 1, 2, [], []⟩, .exact⟩ ∧
    range.union_ ⟨⟨1, 6, 2, [], []⟩, .same_major_version⟩
      ⟨⟨4, 1, 2, [], []⟩, .exact⟩ = none :=
  ⟨rfl, rfl,
    C2_union_disjoint ⟨⟨1, 6, 2, [], []⟩, .same_major_version⟩
      ⟨⟨4, 1, 2, [], []⟩, .exact⟩ (by decide) (by decide) ⟨2, 0, 0, [], []⟩
      (by decide) (by decide)⟩

/-- Claim C5: the subset test `a.contains(b)` is false when `b`'s basis is
strictly below `a`'s; otherwise true when `a`'s kind is `anything_greater`;
otherwise false when `b`'s kind is `anything_greater`; otherwise (both
finite) true exactly when `a.first_bad_version() >= b.first_bad_version()`. -/
theorem C5_containsRange_characterization (a b : range) :
    range.containsRange a b = true ↔
      (vlt b.base_version a.base_version = false ∧
        (a.kind = .anything_greater ∨
          (b.kind ≠ .anything_greater ∧
            ∃ fa fb, range.first_bad_version a = some fa ∧
              range.first_bad_version b = some fb ∧ vge fa fb = true))) := by
  unfold range.containsRange
  cases hv : vlt b.base_version a.base_version
  · simp only [Bool.false_eq_true, if_false]
    by_cases ha : a.kind = .anything_greater
    · simp [ha]
    · rw [if_neg ha]
      by_cases hb : b.kind = .anything_greater
      · simp only [hb, if_pos]
        constructor
        · intro h; cases h
        · rintro ⟨-, h | ⟨hb2, -⟩⟩
          · exact absurd h ha
          · exact absurd rfl hb2
      · rw [if_neg hb]
        rcases hfa : range.first_bad_version a with _ | fa
        · exact absurd (first_bad_version_eq_none_iff a |>.mp hfa) ha
        · rcases hfb : range.first_bad_version b with _ | fb
          · exact absurd (first_bad_version_eq_none_iff b |>.mp hfb) hb
          · constructor
            · intro h
              exact ⟨by trivial, Or.inr ⟨hb, fa, fb, rfl, rfl, h⟩⟩
            · rintro ⟨-, h | ⟨-, fa2, fb2, ha2, hb2, hge⟩⟩
              · exact absurd h ha
              · cases ha2; cases hb2; exact hge
  · simp [hv]

theorem vge_eq_not_vlt (a b : version) : vge a b = !(vlt a b) := by
  simp only [vge, vlt]
  cases vcompare a b <;> rfl

theorem vle_eq_not_vgt (a b : version) : vle a b = !(vgt a b) := by
  simp only [vle, vgt]
  cases vcompare a b <;> rfl

/-- Claim C7: `difference` returns, for non-overlapping inputs, the whole
of `a` as `before` when `a`'s lower bound is strictly below `b`'s and as
`after` otherwise; for overlapping inputs, `before` is `[a.low, b.low)`
when `a.low < b.low` (else empty) and `after` is `[b.high, a.high)` when
`a.high > b.high` (else empty) — i.e. `difference` agrees with the
claim-side formulation `specDifference`. -/
theorem C7_difference_spec (a b : pair.range) :
    pair.range.difference a b = specDifference a b := by
  have hbefore : pair.diff_before a b =
      (if vlt a.low b.low = true then some (⟨a.low, b.low⟩ : pair.range)
        else none) := by
    unfold pair.diff_before
    rw [vge_eq_not_vlt]
    cases vlt a.low b.low <;> simp
  have hafter : pair.diff_after a b =
      (if vgt a.high b.high = true then some (⟨b.high, a.high⟩ : pair.range)
        else none) := by
    unfold pair.diff_after
    rw [vle_eq_not_vgt]
    cases vgt a.high b.high <;> simp
  unfold pair.range.difference specDifference
  rw [hbefore, hafter]
  cases hov : pair.range.overlaps a b <;> simp [hov]

theorem cmpNat_succ_self (a : Nat) : cmpNat a (a + 1) = .lt :=
  cmpNat_lt_iff.mpr (by omega)

theorem cmpNat_self_succ (a : Nat) : cmpNat (a + 1) a = .gt :=
  cmpNat_gt_iff.mpr (by omega)

theorem ordBeq_self (o : Ordering) : (o == o) = true := by
  cases o <;> rfl

theorem ordBeq_eval (a b : Ordering) :
    (a == b) = (match a, b with
      | .lt, .lt => true
      | .eq, .eq => true
      | .gt, .gt => true
      | _, _ => false) := by
  cases a <;> cases b <;> rfl

theorem rangeEq_refl (r : range) : rangeEq r r = true := by
  simp [rangeEq, veq, vcompare_refl, ordBeq_self]

theorem optRangeEq_refl (o : Option range) : optRangeEq o o = true := by
  cases o with
  | none => rfl
  | some r => exact rangeEq_refl r

theorem intersectionBody_comm_eq {a b : range}
    (hc : vcompare a.base_version b.base_version = .eq) :
    optRangeEq (range.intersectionBody a b) (range.intersectionBody b a) = true := by
  rcases a with ⟨⟨am, an, ap, apre, abuild⟩, ak⟩
  rcases b with ⟨⟨bm, bn, bp, bpre, bbuild⟩, bk⟩
  obtain ⟨h1, h2, h3, h4⟩ := vcompare_eq_fields hc
  dsimp only at h1 h2 h3 h4
  subst h1; subst h2; subst h3; subst h4
  have hab : vcompare ⟨am, an, ap, apre, abuild⟩ ⟨am, an, ap, apre, bbuild⟩ =
      .eq := by
    unfold vcompare
    rw [cmpNat_self, cmpNat_self, cmpNat_self, prerelCompare_refl]
  have hba : vcompare ⟨am, an, ap, apre, bbuild⟩ ⟨am, an, ap, apre, abuild⟩ =
      .eq := by
    unfold vcompare
    rw [cmpNat_self, cmpNat_self, cmpNat_self, prerelCompare_refl]
  cases ak <;> cases bk <;>
    simp [range.intersectionBody, optRangeEq, rangeEq, veq, hab, hba,
      vcompare_refl, ordBeq_eval]

theorem unionBody_comm_eq {a b : range}
    (hc : vcompare a.base_version b.base_version = .eq) :
    optRangeEq (range.unionBody a b) (range.unionBody b a) = true := by
  rcases a with ⟨⟨am, an, ap, apre, abuild⟩, ak⟩
  rcases b with ⟨⟨bm, bn, bp, bpre, bbuild⟩, bk⟩
  obtain ⟨h1, h2, h3, h4⟩ := vcompare_eq_fields hc
  dsimp only at h1 h2 h3 h4
  subst h1; subst h2; subst h3; subst h4
  have hab : vcompare ⟨am, an, ap, apre, abuild⟩ ⟨am, an, ap, apre, bbuild⟩ =
      .eq := by
    unfold vcompare
    rw [cmpNat_self, cmpNat_self, cmpNat_self, prerelCompare_refl]
  have hba : vcompare ⟨am, an, ap, apre, bbuild⟩ ⟨am, an, ap, apre, abuild⟩ =
      .eq := by
    unfold vcompare
    rw [cmpNat_self, cmpNat_self, cmpNat_self, prerelCompare_refl]
  cases ak <;> cases bk <;>
    simp [range.unionBody, range.first_bad_version, optRangeEq, rangeEq, veq,
      vgt, vge, vcompare, cmpNat_self, cmpNat_succ_self, cmpNat_self_succ,
      prerelCompare_refl, hab, hba, ordBeq_eval]

/-- Claim C4: intersection and union are each commutative under the
`std::optional<range>` equality (which compares kinds and basis versions,
ignoring build metadata), including when the two basis versions are equal
but the kinds differ, where the swap-based normalization does not fire. -/
theorem C4_commutativity (a b : range) :
    optRangeEq (range.intersection a b) (range.intersection b a) = true ∧
    optRangeEq (range.union_ a b) (range.union_ b a) = true := by
  cases hc : vcompare a.base_version b.base_version
  case lt =>
    have hab : vlt a.base_version b.base_version = true := vlt_iff.mpr hc
    have hba : vlt b.base_version a.base_version = false := by
      rw [vlt_false_iff, vcompare_swap, hc]
      exact Or.inl rfl
    unfold range.intersection range.union_
    rw [hab, hba]
    simp only [Bool.false_eq_true, if_false, if_true]
    exact ⟨optRangeEq_refl _, optRangeEq_refl _⟩
  case eq =>
    have hab : vlt a.base_version b.base_version = false :=
      vlt_false_iff.mpr (Or.inr hc)
    have hba : vlt b.base_version a.base_version = false := by
      rw [vlt_false_iff, vcompare_swap, hc]
      exact Or.inr rfl
    unfold range.intersection range.union_
    rw [hab, hba]
    simp only [Bool.false_eq_true, if_false]
    exact ⟨intersectionBody_comm_eq hc, unionBody_comm_eq hc⟩
  case gt =>
    have hab : vlt a.base_version b.base_version = false :=
      vlt_false_iff.mpr (Or.inl hc)
    have hba : vlt b.base_version a.base_version = true := by
      rw [vlt_iff, vcompare_swap, hc]
      rfl
    unfold range.intersection range.union_
    rw [hab, hba]
    simp only [Bool.false_eq_true, if_false, if_true]
    exact ⟨optRangeEq_refl _, optRangeEq_refl _⟩

theorem vgt_self (v : version) : vgt v v = false := by
  simp [vgt, vcompare_refl, ordBeq_eval]

theorem msStep_skip {r : range} {x : version} (acc : Option version)
    (h : range.contains r x = false) : msStep r acc x = acc := by
  unfold msStep
  rw [h]
  rfl

theorem msStep_adopt {r : range} {x : version}
    (h : range.contains r x = true) : msStep r none x = some x := by
  unfold msStep
  rw [h]
  rfl

theorem msStep_replace {r : range} {x best : version}
    (h : range.contains r x = true) (hg : vgt x best = true) :
    msStep r (some best) x = some x := by
  unfold msStep
  simp [h, hg]

theorem msStep_keep {r : range} {x best : version}
    (h : range.contains r x = true) (hg : vgt x best = false) :
    msStep r (some best) x = some best := by
  unfold msStep
  simp [h, hg]

theorem ms_foldl_none {r : range} : ∀ {vs : List version} {acc : Option version},
    vs.foldl (msStep r) acc = none ↔
      acc = none ∧ ∀ v ∈ vs, range.contains r v = false := by
  intro vs
  induction vs with
  | nil => intro acc; simp [List.foldl]
  | cons x xs ih =>
    intro acc
    rw [List.foldl_cons, ih]
    constructor
    · rintro ⟨hstep, hall⟩
      cases hcx : range.contains r x
      · rw [msStep_skip acc hcx] at hstep
        refine ⟨hstep, ?_⟩
        intro v hv
        rcases List.mem_cons.mp hv with h | h
        · rw [h]
          exact hcx
        · exact hall v h
      · exfalso
        cases acc with
        | none =>
          rw [msStep_adopt hcx] at hstep
          cases hstep
        | some best =>
          cases hgt : vgt x best
          · rw [msStep_keep hcx hgt] at hstep
            cases hstep
          · rw [msStep_replace hcx hgt] at hstep
            cases hstep
    · rintro ⟨hacc, hall⟩
      have hcx := hall x (List.mem_cons_self x xs)
      subst hacc
      rw [msStep_skip none hcx]
      exact ⟨rfl, fun v hv => hall v (List.mem_cons_of_mem x hv)⟩

theorem ms_foldl_some {r : range} : ∀ {vs : List version} {acc : Option version}
    {v : version}, vs.foldl (msStep r) acc = some v →
      acc = some v ∨ (v ∈ vs ∧ range.contains r v = true) := by
  intro vs
  induction vs with
  | nil => intro acc v h; exact Or.inl h
  | cons x xs ih =>
    intro acc v h
    rw [List.foldl_cons] at h
    rcases ih h with hstep | ⟨hm, hc⟩
    · cases hcx : range.contains r x
      · rw [msStep_skip acc hcx] at hstep
        exact Or.inl hstep
      · cases acc with
        | none =>
          rw [msStep_adopt hcx] at hstep
          cases hstep
          exact Or.inr ⟨List.mem_cons_self x xs, hcx⟩
        | some best =>
          cases hgt : vgt x best
          · rw [msStep_keep hcx hgt] at hstep
            exact Or.inl hstep
          · rw [msStep_replace hcx hgt] at hstep
            cases hstep
            exact Or.inr ⟨List.mem_cons_self x xs, hcx⟩
    · exact Or.inr ⟨List.mem_cons_of_mem x hm, hc⟩

theorem ms_foldl_max {r : range} : ∀ {vs : List version} {acc : Option version}
    {v : version}, vs.foldl (msStep r) acc = some v →
      (∀ u ∈ vs, range.contains r u = true → vgt u v = false) ∧
      (∀ w, acc = some w → vgt w v = false) := by
  intro vs
  induction vs with
  | nil =>
    intro acc v h
    constructor
    · intro u hu
      cases hu
    · intro w hw
      rw [hw] at h
      cases h
      exact vgt_self v
  | cons x xs ih =>
    intro acc v h
    rw [List.foldl_cons] at h
    obtain ⟨ihall, ihacc⟩ := ih h
    constructor
    · intro u hu hcu
      rcases List.mem_cons.mp hu with hux | hux
      · subst hux
        cases acc with
        | none => exact ihacc u (msStep_adopt hcu)
        | some best =>
          cases hgt : vgt u best
          · exact vgt_false_trans hgt (ihacc best (msStep_keep hcu hgt))
          · exact ihacc u (msStep_replace hcu hgt)
      · exact ihall u hux hcu
    · intro w hw
      subst hw
      cases hcx : range.contains r x
      · exact ihacc w (msStep_skip (some w) hcx)
      · cases hgt : vgt x w
        · exact ihacc w (msStep_keep hcx hgt)
        · have hxv : vgt x v = false := ihacc x (msStep_replace hcx hgt)
          have hwx : vgt w x = false := by
            rw [vgt_false_iff]
            rw [vgt_iff] at hgt
            left
            rw [vcompare_swap, hgt]
            rfl
          exact vgt_false_trans hwx hxv

/-- Claim C6 (counterexample): two versions that compare equal but differ
in build metadata are both contained in the range parsed from `"*"`, and
`max_satisfying` keeps the first one encountered, so the two iteration
orders of the same (permuted) sequence return structurally different
results — the result is not identical across iteration orders. -/
theorem C6_counterexample :
    ([⟨1, 2, 3, [], [['a']]⟩, ⟨1, 2, 3, [], [['b']]⟩] : List version).Perm
      [⟨1, 2, 3, [], [['b']]⟩, ⟨1, 2, 3, [], [['a']]⟩] ∧
    range.max_satisfying ⟨⟨0, 0, 0, [], []⟩, .anything_greater⟩
        [⟨1, 2, 3, [], [['a']]⟩, ⟨1, 2, 3, [], [['b']]⟩] =
      some ⟨1, 2, 3, [], [['a']]⟩ ∧
    range.max_satisfying ⟨⟨0, 0, 0, [], []⟩, .anything_greater⟩
        [⟨1, 2, 3, [], [['b']]⟩, ⟨1, 2, 3, [], [['a']]⟩] =
      some ⟨1, 2, 3, [], [['b']]⟩ ∧
    (⟨1, 2, 3, [], [['a']]⟩ : version) ≠ ⟨1, 2, 3, [], [['b']]⟩ :=
  ⟨by decide, rfl, rfl, by decide⟩

/-- Claim C6 (amended): `max_satisfying` returns the empty optional exactly
when no element is contained; a returned version is an element, is
contained, and no contained element is strictly greater than it (so it is a
greatest contained element); and across permutations of the sequence the
results agree up to the version comparison (`==`, which ignores build
metadata) — but only up to it: the build metadata of the result may depend
on the iteration order. -/
theorem C6_max_satisfying_amended :
    (∀ (r : range) (vs : List version),
      range.max_satisfying r vs = none ↔
        ∀ v ∈ vs, range.contains r v = false) ∧
    (∀ (r : range) (vs : List version) (v : version),
      range.max_satisfying r vs = some v →
        v ∈ vs ∧ range.contains r v = true ∧
          ∀ u ∈ vs, range.contains r u = true → vgt u v = false) ∧
    (∀ (r : range) (vs ws : List version), vs.Perm ws →
      ∀ v w, range.max_satisfying r vs = some v →
        range.max_satisfying r ws = some w → vcompare v w = .eq) := by
  have hsome : ∀ (r : range) (vs : List version) (v : version),
      range.max_satisfying r vs = some v →
        v ∈ vs ∧ range.contains r v = true ∧
          ∀ u ∈ vs, range.contains r u = true → vgt u v = false := by
    intro r vs v h
    unfold range.max_satisfying at h
    rcases ms_foldl_some h with hacc | ⟨hm, hc⟩
    · cases hacc
    · exact ⟨hm, hc, (ms_foldl_max h).1⟩
  refine ⟨?_, hsome, ?_⟩
  · intro r vs
    unfold range.max_satisfying
    rw [ms_foldl_none]
    simp
  · intro r vs ws hperm v w hv hw
    obtain ⟨hvm, hvc, hvmax⟩ := hsome r vs v hv
    obtain ⟨hwm, hwc, hwmax⟩ := hsome r ws w hw
    have h1 : vgt v w = false := hwmax v (hperm.mem_iff.mp hvm) hvc
    have h2 : vgt w v = false := hvmax w (hperm.mem_iff.mpr hwm) hwc
    exact vcompare_eq_of_not_gt h1 h2

/-- Witness for C6 (amended): the results of `max_satisfying` under the two
iteration orders of the counterexample sequence compare equal (they differ
only in build metadata). -/
theorem C6_witness :
    vcompare ⟨1, 2, 3, [], [['a']]⟩ ⟨1, 2, 3, [], [['b']]⟩ = .eq :=
  C6_max_satisfying_amended.2.2 ⟨⟨0, 0, 0, [], []⟩, .anything_greater⟩
    [⟨1, 2, 3, [], [['a']]⟩, ⟨1, 2, 3, [], [['b']]⟩]
    [⟨1, 2, 3, [], [['b']]⟩, ⟨1, 2, 3, [], [['a']]⟩]
    (by decide) _ _ rfl rfl

/-! Structural facts about the modelled version parser, used by the claims
about the range parsers. -/

theorem parseTail_not_invalid_range (s : String) (base : version) (off : Nat)
    (cs : List Char) : isInvalidRange (version.parseTail s base off cs) = false := by
  unfold version.parseTail
  repeat' split
  all_goals rfl

theorem version_parse_not_invalid_range (s : String) :
    isInvalidRange (version.parse s) = false := by
  unfold version.parse
  dsimp only
  repeat' split
  all_goals first
    | rfl
    | exact parseTail_not_invalid_range _ _ _ _

theorem version_parse_no_invalid_range {s t : String}
    (h : version.parse s = .error (.invalid_range t)) : False := by
  have hir := version_parse_not_invalid_range s
  rw [h] at hir
  cases hir

theorem map_version_parse_not_invalid_range {α : Type} (f : version → α)
    (x : String) : isInvalidRange ((version.parse x).map f) = false := by
  have hir := version_parse_not_invalid_range x
  cases hv : version.parse x with
  | ok v => rfl
  | error e =>
    rw [hv] at hir
    cases e with
    | invalid_version a b => rfl
    | invalid_range t => simp [isInvalidRange] at hir

theorem parseTail_fields : ∀ {cs : List Char} {s : String} {base : version}
    {off : Nat} {v : version}, version.parseTail s base off cs = .ok v →
      v.major = base.major ∧ v.minor = base.minor ∧ v.patch = base.patch := by
  intro cs s base off v h
  unfold version.parseTail at h
  repeat' split at h
  all_goals cases h <;> exact ⟨rfl, rfl, rfl⟩

theorem version_parse_major_lt {s : String} {v : version}
    (h : version.parse s = .ok v) : v.major < version.component_max := by
  unfold version.parse at h
  dsimp only at h
  split at h
  · cases h
  · rename_i hmaj
    split at h
    · split at h
      · cases h
      · split at h
        · split at h
          · cases h
          · obtain ⟨h1, -, -⟩ := parseTail_fields h
            have h1a : v.major =
                digitsToNat (List.takeWhile Char.isDigit s.data) := h1
            simp only [Bool.or_eq_true, decide_eq_true_eq, not_or] at hmaj
            obtain ⟨-, h2⟩ := hmaj
            omega
        · cases h
    · cases h

theorem all_not_lt_of_findIdx_none {l : List Char}
    (h : l.findIdx? (fun c => c == '<') = none) :
    l.all (fun c => !(c == '<')) = true := by
  rw [List.all_eq_true]
  intro c hc
  rw [List.findIdx?_eq_none_iff] at h
  simp only [Bool.not_eq_true']
  exact h c hc

theorem not_all_of_findIdx_some {l : List Char} {i : Nat}
    (h : l.findIdx? (fun c => c == '<') = some i) :
    l.all (fun c => !(c == '<')) = false := by
  obtain ⟨hlen, hidx⟩ := List.findIdx?_eq_some_iff_findIdx_eq.mp h
  subst hidx
  have h2 : ((l.get ⟨List.findIdx (fun c => c == '<') l, hlen⟩) == '<') = true :=
    @List.findIdx_get _ (fun c => c == '<') l hlen
  cases hall : l.all (fun c => !(c == '<'))
  · rfl
  · exfalso
    rw [List.all_eq_true] at hall
    have h3 := hall (l.get ⟨List.findIdx (fun c => c == '<') l, hlen⟩)
      (List.get_mem l (List.findIdx (fun c => c == '<') l) hlen)
    rw [h2] at h3
    simp at h3

theorem map_version_parse_ne_invalid_range {α : Type} {f : version → α}
    {x : String} {t : String}
    (h : (version.parse x).map f = .error (.invalid_range t)) : False := by
  have hm := map_version_parse_not_invalid_range f x
  rw [h] at hm
  simp [isInvalidRange] at hm

/-- Claim C8 (counterexample): on the input `"a<1.2.3"` the claim's
condition for an invalid-range error holds (the first character is neither
a recognized prefix nor a digit, and the input is not `"*"`), yet the
parser raises the invalid-version error propagated from the embedded
version parse of `"a"`, not invalid-range. -/
theorem C8_counterexample :
    rangeParseClaimCond "a<1.2.3" = true ∧
    pair.range.parse "a<1.2.3" = .error (.invalid_version "a" 0) ∧
    isInvalidRange (pair.range.parse "a<1.2.3") = false :=
  ⟨rfl, rfl, rfl⟩

/-- Claim C8 (amended): `range::parse` raises invalid-range (carrying the
original input string) exactly when: the input is empty, or the input
contains no `<` and its first character is neither a recognized prefix
(`=`, `~`, `^`, `+`) nor a decimal digit and the input is not `"*"`, or
the input is a two-endpoint `low<high` form whose endpoints both parse as
versions and whose high endpoint is not strictly greater than the low
endpoint; failures of the embedded version parse propagate as
invalid-version errors. -/
theorem C8_invalid_range_amended :
    (∀ s : String, isInvalidRange (pair.range.parse s) = rangeParseAmendedCond s) ∧
    (∀ s t : String, pair.range.parse s = .error (.invalid_range t) → t = s) := by
  constructor
  · intro s
    unfold pair.range.parse rangeParseAmendedCond twoEndpointNotAbove
    cases hfind : s.data.findIdx? (fun c => c == '<') with
    | none =>
      rw [all_not_lt_of_findIdx_none hfind]
      simp only [Bool.true_and, Bool.or_false]
      unfold pair.range.parse_restricted firstIsRangeToken
      split
      · rename_i hstar
        subst hstar
        rfl
      · rename_i hstar
        have hstar2 : (s == "*") = false := beq_eq_false_iff_ne.mpr hstar
        split
        · rename_i hempty
          subst hempty
          rfl
        · rename_i hempty
          have hempty2 : (s == "") = false := beq_eq_false_iff_ne.mpr hempty
          rw [hstar2, hempty2]
          split
          · rfl
          · rename_i c rest hdata
            cases heq : c == '='
            case true => simp [map_version_parse_not_invalid_range]
            case false =>
              cases hdig : c.isDigit
              case true => simp [map_version_parse_not_invalid_range]
              case false =>
                cases htil : c == '~'
                case true => simp [map_version_parse_not_invalid_range]
                case false =>
                  cases hcar : c == '^'
                  case true => simp [map_version_parse_not_invalid_range]
                  case false =>
                    cases hplus : c == '+'
                    case true => simp [map_version_parse_not_invalid_range]
                    case false => simp [isInvalidRange]
    | some i =>
      rw [not_all_of_findIdx_some hfind]
      simp only [Bool.false_and, Bool.false_or]
      cases hlow : version.parse (String.mk (List.take i s.data)) with
      | error e =>
        have hir := version_parse_not_invalid_range (String.mk (List.take i s.data))
        rw [hlow] at hir
        cases e with
        | invalid_version a b => rfl
        | invalid_range t => simp [isInvalidRange] at hir
      | ok low =>
        cases hhigh : version.parse (String.mk (List.drop (i + 1) s.data)) with
        | error e =>
          have hir :=
            version_parse_not_invalid_range (String.mk (List.drop (i + 1) s.data))
          rw [hhigh] at hir
          cases e with
          | invalid_version a b => rfl
          | invalid_range t => simp [isInvalidRange] at hir
        | ok high =>
          cases hle : vle high low <;> simp [hle, isInvalidRange]
  · intro s t h
    unfold pair.range.parse at h
    cases hfind : s.data.findIdx? (fun c => c == '<') with
    | none =>
      rw [hfind] at h
      dsimp only at h
      unfold pair.range.parse_restricted at h
      repeat' split at h
      all_goals first
        | (cases h; rfl)
        | cases h
        | exact (map_version_parse_ne_invalid_range h).elim
    | some i =>
      rw [hfind] at h
      dsimp only at h
      cases hlow : version.parse (String.mk (List.take i s.data)) with
      | error e =>
        rw [hlow] at h
        cases h
        exact (version_parse_no_invalid_range hlow).elim
      | ok low =>
        rw [hlow] at h
        cases hhigh : version.parse (String.mk (List.drop (i + 1) s.data)) with
        | error e =>
          rw [hhigh] at h
          cases h
          exact (version_parse_no_invalid_range hhigh).elim
        | ok high =>
          rw [hhigh] at h
          dsimp only at h
          cases hle : vle high low <;> rw [hle] at h <;> simp at h
          exact h.symm

theorem vcompare_gt_iff {a b : version} :
    vcompare a b = .gt ↔ vcompare b a = .lt := by
  rw [vcompare_swap b a]
  cases vcompare b a <;> simp [Ordering.swap]

theorem vgt_trans {a b c : version} (h1 : vgt a b = true)
    (h2 : vgt b c = true) : vgt a c = true := by
  rw [vgt_iff] at h1 h2 ⊢
  rw [vcompare_gt_iff] at h1 h2 ⊢
  exact vcompare_lt_trans h2 h1

theorem vgt_of_not_lt_gt {a b c : version} (h1 : vlt a b = false)
    (h2 : vgt b c = true) : vgt a c = true := by
  rw [vlt_false_iff] at h1
  rcases h1 with h1 | h1
  · exact vgt_trans (vgt_iff.mpr h1) h2
  · rw [vgt_iff, vcompare_congr_left h1 c, ← vgt_iff]
    exact h2

theorem vgt_of_gt_not_lt {a b c : version} (h1 : vgt a b = true)
    (h2 : vlt b c = false) : vgt a c = true := by
  rw [vlt_false_iff] at h2
  rcases h2 with h2 | h2
  · exact vgt_trans h1 (vgt_iff.mpr h2)
  · rw [vgt_iff, ← vcompare_congr_right h2 a, ← vgt_iff]
    exact h1

theorem vgt_next_after_patch_max (v : version) :
    vgt (version.next_after { v with patch := version.component_max }) v =
      true := by
  rw [vgt_iff]
  unfold version.next_after
  dsimp only
  rw [if_neg (by intro hc; exact hc rfl)]
  split
  · unfold vcompare
    dsimp only
    rw [cmpNat_self]
    rw [show cmpNat (v.minor + 1) v.minor = .gt from cmpNat_gt_iff.mpr (by omega)]
  · unfold vcompare
    dsimp only
    rw [show cmpNat (v.major + 1) v.major = .gt from cmpNat_gt_iff.mpr (by omega)]

theorem vgt_next_after_minor_patch_max (v : version) :
    vgt (version.next_after
      { v with minor := version.component_max
               patch := version.component_max }) v = true := by
  rw [vgt_iff]
  unfold version.next_after
  dsimp only
  rw [if_neg (by intro hc; exact hc rfl), if_neg (by intro hc; exact hc rfl)]
  unfold vcompare
  dsimp only
  rw [show cmpNat (v.major + 1) v.major = .gt from cmpNat_gt_iff.mpr (by omega)]

theorem vgt_max_version {v : version} (h : v.major < version.component_max) :
    vgt version.max_version v = true := by
  rw [vgt_iff]
  unfold vcompare version.max_version
  dsimp only
  rw [show cmpNat version.component_max v.major = .gt from cmpNat_gt_iff.mpr h]

/-- Witness for C8 (amended), at concrete inputs: the bad-first-character
rule evaluated on `"a"`, and the payload of the invalid-range error raised
on the two-endpoint input `"1.2.4<1.2.3"` being the original string. -/
theorem C8_witness :
    isInvalidRange (pair.range.parse "a") = rangeParseAmendedCond "a" ∧
    ("1.2.4<1.2.3" : String) = "1.2.4<1.2.3" :=
  ⟨C8_invalid_range_amended.1 "a",
    C8_invalid_range_amended.2 "1.2.4<1.2.3" "1.2.4<1.2.3" rfl⟩

theorem map_ok {α β : Type} {f : α → β} {x : Except semerr α} {r : β}
    (h : x.map f = .ok r) : ∃ v, x = .ok v ∧ r = f v := by
  cases x with
  | error e => cases h
  | ok v =>
    refine ⟨v, rfl, ?_⟩
    cases h
    rfl

theorem everything_assertOk : pair.range.assertOk pair.range.everything = true := by
  decide

theorem parse_restricted_assertOk {s : String} {r : pair.range}
    (h : pair.range.parse_restricted s = .ok r) :
    pair.range.assertOk r = true := by
  unfold pair.range.parse_restricted at h
  split at h
  · cases h
    exact everything_assertOk
  · split at h
    · cases h
    · split at h
      · cases h
      · split at h
        · obtain ⟨v, hv, hr⟩ := map_ok h
          subst hr
          exact vgt_next_after v
        · split at h
          · obtain ⟨v, hv, hr⟩ := map_ok h
            subst hr
            exact vgt_next_after v
          · split at h
            · obtain ⟨v, hv, hr⟩ := map_ok h
              subst hr
              exact vgt_next_after_patch_max v
            · split at h
              · obtain ⟨v, hv, hr⟩ := map_ok h
                subst hr
                exact vgt_next_after_minor_patch_max v
              · split at h
                · obtain ⟨v, hv, hr⟩ := map_ok h
                  subst hr
                  exact vgt_max_version (version_parse_major_lt hv)
                · cases h

theorem parse_assertOk {s : String} {r : pair.range}
    (h : pair.range.parse s = .ok r) : pair.range.assertOk r = true := by
  unfold pair.range.parse at h
  cases hfind : s.data.findIdx? (fun c => c == '<') with
  | none =>
    rw [hfind] at h
    dsimp only at h
    exact parse_restricted_assertOk h
  | some i =>
    rw [hfind] at h
    dsimp only at h
    cases hlow : version.parse (String.mk (List.take i s.data)) with
    | error e =>
      rw [hlow] at h
      cases h
    | ok low =>
      rw [hlow] at h
      cases hhigh : version.parse (String.mk (List.drop (i + 1) s.data)) with
      | error e =>
        rw [hhigh] at h
        cases h
      | ok high =>
        rw [hhigh] at h
        dsimp only at h
        cases hle : vle high low
        · rw [hle] at h
          simp only [Bool.false_eq_true, if_false] at h
          cases h
          show vgt high low = true
          exact vgt_iff.mpr (vle_false_iff.mp hle)
        · rw [hle] at h
          simp at h

theorem intersection_assertOk {a b r : pair.range}
    (h : pair.range.intersection a b = some r) :
    pair.range.assertOk r = true := by
  unfold pair.range.intersection at h
  dsimp only at h
  split at h
  · rename_i hlt
    cases h
    show vgt (pair.vmin a.high b.high) (pair.vmax a.low b.low) = true
    rw [vgt_eq_vlt_rev]
    exact hlt
  · cases h

theorem union_assertOk {a b r : pair.range}
    (ha : pair.range.assertOk a = true) (hb : pair.range.assertOk b = true)
    (h : pair.range.union_ a b = some r) : pair.range.assertOk r = true := by
  unfold pair.range.union_ at h
  cases h
  show vgt (pair.vmax a.high b.high) (pair.vmin a.low b.low) = true
  unfold pair.vmax pair.vmin
  cases hmax : vlt a.high b.high <;> cases hmin : vlt b.low a.low <;>
    simp only [hmax, hmin, Bool.false_eq_true, if_false, if_true]
  · exact ha
  · exact vgt_of_not_lt_gt hmax hb
  · exact vgt_trans (by rw [vgt_eq_vlt_rev]; exact hmax) ha
  · exact hb

theorem difference_assertOk {a b : pair.range}
    (ha : pair.range.assertOk a = true) :
    (∀ r, (pair.range.difference a b).before = some r →
      pair.range.assertOk r = true) ∧
    (∀ r, (pair.range.difference a b).after = some r →
      pair.range.assertOk r = true) := by
  unfold pair.range.difference
  cases hov : pair.range.overlaps a b
  · simp only [Bool.not_false, if_true]
    cases hlt : vlt a.low b.low <;>
      simp only [Bool.false_eq_true, if_false, if_true]
    · exact ⟨fun r hr => (by cases hr), fun r hr => (by cases hr; exact ha)⟩
    · exact ⟨fun r hr => (by cases hr; exact ha), fun r hr => (by cases hr)⟩
  · simp only [Bool.not_true, Bool.false_eq_true, if_false]
    constructor
    · intro r hr
      unfold pair.diff_before at hr
      cases hv : vge a.low b.low <;> rw [hv] at hr
      · simp only [Bool.false_eq_true, if_false] at hr
        cases hr
        show vgt b.low a.low = true
        rw [vgt_eq_vlt_rev]
        exact vlt_iff.mpr (vge_false_iff.mp hv)
      · simp at hr
    · intro r hr
      unfold pair.diff_after at hr
      cases hv : vle a.high b.high <;> rw [hv] at hr
      · simp only [Bool.false_eq_true, if_false] at hr
        cases hr
        show vgt a.high b.high = true
        exact vgt_iff.mpr (vle_false_iff.mp hv)
      · simp at hr

/-- Claim C9: every range produced by the public constructors and
operations of the two-endpoint revision — `everything()`, `exactly()`,
`parse`, `parse_restricted`, `intersection`, `union_`, and both parts of
`difference` (the set operations assuming well-formed inputs) — satisfies
the constructor's assertion `high > low`, so the assertion never fires on
those paths. -/
theorem C9_constructor_assertion :
    pair.range.assertOk pair.range.everything = true ∧
    (∀ v : version, pair.range.assertOk (pair.range.exactly v) = true) ∧
    (∀ (s : String) (r : pair.range), pair.range.parse s = .ok r →
      pair.range.assertOk r = true) ∧
    (∀ (s : String) (r : pair.range), pair.range.parse_restricted s = .ok r →
      pair.range.assertOk r = true) ∧
    (∀ a b r : pair.range, pair.range.intersection a b = some r →
      pair.range.assertOk r = true) ∧
    (∀ a b r : pair.range, pair.range.assertOk a = true →
      pair.range.assertOk b = true → pair.range.union_ a b = some r →
      pair.range.assertOk r = true) ∧
    (∀ a b r : pair.range, pair.range.assertOk a = true →
      (pair.range.difference a b).before = some r →
      pair.range.assertOk r = true) ∧
    (∀ a b r : pair.range, pair.range.assertOk a = true →
      (pair.range.difference a b).after = some r →
      pair.range.assertOk r = true) :=
  ⟨everything_assertOk,
    fun v => vgt_next_after v,
    fun _ _ h => parse_assertOk h,
    fun _ _ h => parse_restricted_assertOk h,
    fun _ _ _ h => intersection_assertOk h,
    fun _ _ _ ha hb h => union_assertOk ha hb h,
    fun a b r ha h => (difference_assertOk ha).1 r h,
    fun a b r ha h => (difference_assertOk ha).2 r h⟩

/-- Witness for C9: the constructor assertion holds on the results of
`parse "~1.2.3"`, of a concrete union, and of a concrete difference. -/
theorem C9_witness :
    pair.range.assertOk ⟨⟨1, 2, 3, [], []⟩, ⟨1, 3, 0, [], []⟩⟩ = true ∧
    pair.range.assertOk ⟨⟨1, 0, 0, [], []⟩, ⟨3, 0, 0, [], []⟩⟩ = true ∧
    pair.range.assertOk ⟨⟨1, 0, 0, [], []⟩, ⟨2, 0, 0, [], []⟩⟩ = true :=
  ⟨C9_constructor_assertion.2.2.1 "~1.2.3" ⟨⟨1, 2, 3, [], []⟩, ⟨1, 3, 0, [], []⟩⟩ rfl,
    C9_constructor_assertion.2.2.2.2.2.1 ⟨⟨1, 0, 0, [], []⟩, ⟨2, 0, 0, [], []⟩⟩
      ⟨⟨2, 0, 0, [], []⟩, ⟨3, 0, 0, [], []⟩⟩ ⟨⟨1, 0, 0, [], []⟩, ⟨3, 0, 0, [], []⟩⟩
      (by decide) (by decide) rfl,
    C9_constructor_assertion.2.2.2.2.2.2.1 ⟨⟨1, 0, 0, [], []⟩, ⟨2, 0, 0, [], []⟩⟩
      ⟨⟨2, 0, 0, [], []⟩, ⟨3, 0, 0, [], []⟩⟩ ⟨⟨1, 0, 0, [], []⟩, ⟨2, 0, 0, [], []⟩⟩
      (by decide) (by decide)⟩

end Semver
